import Mathlib

/-!
Verification of the NIX file-upgrade engine (`nixio/cmd/upgrade.py`).

The embedding models an HDF5 container as a root attribute set (`version`,
`id`) together with a flat association list of the datasets that live under
its `metadata` group, keyed by their full path string, listed in the order
`h5py`'s recursive `visititems` traversal yields them.  Pure python helpers
become Lean functions; python exceptions (KeyError on a missing attribute,
create-on-existing-name, field access on a non-compound dataset) become
`Except String`.  IEEE floats never matter here — the sole float conversion
(`dtype=float` for the uncertainty sibling) is applied to exactly
representable values, so it is modelled by exact rationals tagged with a
float dtype.
-/

namespace Upgrade

/-- Lexicographic strict order on integer tuples, exactly python's `<` on
tuples of ints (a proper prefix is smaller). -/
def tupleLt : List Int → List Int → Bool
  | _, [] => false
  | [], _ :: _ => true
  | a :: as, b :: bs => if a < b then true else if a = b then tupleLt as bs else false

/-- Python's `>=` on int tuples: not lexicographically less. -/
def tupleGe (a b : List Int) : Bool := !(tupleLt a b)

/-- Hexadecimal digit test, upper or lower case. -/
def isHexDigit (c : Char) : Bool :=
  c.isDigit || ('a' ≤ c && c ≤ 'f') || ('A' ≤ c && c ≤ 'F')

/-- Modelled from the spec: `nix.util.is_uuid` is not under `src/` (only its
caller `has_valid_file_id` is).  The spec requires "a syntactically valid
UUID"; this checks the canonical 8-4-4-4-12 hyphenated hexadecimal form. -/
def isUuid (s : String) : Bool :=
  let cs := s.data
  cs.length == 36 &&
    (List.range 36).all (fun i =>
      let c := cs.getD i ' '
      if i == 8 || i == 13 || i == 18 || i == 23 then c == '-' else isHexDigit c)

/-- Scalar cell values stored in datasets.  `real` carries an exact rational
standing for a float-typed cell whose value is exactly representable. -/
inductive Scalar where
  | int (n : Int)
  | real (q : Rat)
  | str (s : String)
  deriving DecidableEq

/-- Element dtypes of (non-compound) datasets. -/
inductive DType where
  | intDt
  | floatDt
  | strDt
  deriving DecidableEq

/-- Generator state: a counter backing `nix.util.create_id` and the clock
backing `nix.util.now_int` (constant during one run). -/
structure Env where
  nextId : Nat
  now : Nat
  deriving DecidableEq

/-- `nix.util.create_id`: draw a fresh identifier, advancing the counter. -/
def createId (e : Env) : String × Env :=
  ("uuid-" ++ toString e.nextId, { e with nextId := e.nextId + 1 })

/-- The six named columns of a legacy compound property dataset:
`value` (with its sub-dtype) plus the five auxiliary columns. -/
structure LegacyCols where
  valueDtype : DType
  value : List Scalar
  uncertainty : List Int
  reference : List String
  filename : List String
  encoder : List String
  checksum : List String
  deriving DecidableEq

/-- A canonical simple dataset: element data plus the attributes
`create_property` stamps, and the optional scalar `uncertainty` attribute. -/
structure SimpleDS where
  dtype : DType
  data : List Scalar
  nameAttr : String
  entityId : String
  createdAt : Nat
  updatedAt : Nat
  uncertaintyAttr : Option Int
  deriving DecidableEq

/-- A dataset under `metadata`: legacy compound row type, or simple. -/
inductive DSet where
  | legacy (c : LegacyCols)
  | simple (d : SimpleDS)
  deriving DecidableEq

/-- `len(group.dtype)`: the number of named fields of the row type.  A
legacy compound property has the six named fields read by `update_props`; a
non-compound dtype has length 0. -/
def DSet.dtypeLen : DSet → Nat
  | .legacy _ => 6
  | .simple _ => 0

/-- The `metadata` subtree: datasets keyed by full path, in traversal order
(h5py paths are unique, links are created at the end of the listing). -/
abbrev MMap := List (String × DSet)

/-- `hfile[path]`: first dataset stored under `path`. -/
def dsLookup : MMap → String → Option DSet
  | [], _ => none
  | (n, d) :: rest, p => if n = p then some d else dsLookup rest p

/-- `del hfile[path]`: remove the dataset link named `path`. -/
def dsDelete : MMap → String → MMap
  | [], _ => []
  | (n, d) :: rest, p => if n = p then dsDelete rest p else (n, d) :: dsDelete rest p

/-- `hfile.create_dataset(path, ...)`: fails when the name already exists,
otherwise adds the new dataset at the end of the listing. -/
def dsCreate (m : MMap) (p : String) (d : DSet) : Except String MMap :=
  match dsLookup m p with
  | some _ => .error ("name already exists: " ++ p)
  | none => .ok (m ++ [(p, d)])

/-- The root `version` attribute: absent, an integer tuple, or present but
not an integer tuple (tagged with a description of the stray value). -/
inductive VersionAttr where
  | absent
  | ints (xs : List Int)
  | other (tag : String)
  deriving DecidableEq

/-- The container file: root attributes and the `metadata` subtree. -/
structure HFile where
  version : VersionAttr
  fileId : Option String
  metadata : MMap

/-- `get_file_version`: `tuple(hfile.attrs["version"])`.  A missing
attribute raises `KeyError`; a present attribute is returned as is (a
non-integer value only fails later, at the tuple comparison). -/
def get_file_version (f : HFile) : Except String VersionAttr :=
  match f.version with
  | .absent => .error "KeyError: version"
  | v => .ok v

/-- `has_valid_file_id`: `fileid = hfile.attrs.get("id")`, then
`if fileid and nix.util.is_uuid(fileid)`.  The python truthiness test makes
an empty string fall through to `False` just like an absent attribute. -/
def has_valid_file_id (f : HFile) : Bool :=
  match f.fileId with
  | none => false
  | some s => !(s == "") && isUuid s

/-- `find_props` inside `update_property_values`: `visititems` visits every
dataset under `metadata` recursively and collects the paths of those whose
row type is compound (`len(group.dtype)` non-zero), before any mutation. -/
def find_props (m : MMap) : List String :=
  (m.filter (fun e => e.2.dtypeLen != 0)).map Prod.fst

/-- Characters after the last `'/'` (the whole list when there is none):
the text of `name.split("/")[-1]`. -/
def leafChars : List Char → List Char → List Char
  | [], acc => acc.reverse
  | c :: rest, acc => if c = '/' then leafChars rest [] else leafChars rest (c :: acc)

/-- `name.split("/")[-1]`: the last component of a slash-separated path. -/
def leafName (name : String) : String :=
  String.mk (leafChars name.data [])

/-- `create_property`: create a dataset and stamp the `name` (last path
component), `entity_id` (freshly drawn), `created_at` and `updated_at`
(current time) attributes. -/
def create_property (env : Env) (name : String) (dtype : DType)
    (data : List Scalar) : SimpleDS × Env :=
  ({ dtype := dtype, data := data,
     nameAttr := leafName name,
     entityId := (createId env).1,
     createdAt := (createId env).2.now, updatedAt := (createId env).2.now,
     uncertaintyAttr := none }, (createId env).2)

/-- An integer column converted to float cells (`dtype=float` on the
uncertainty sibling): the values are exactly representable, so the
conversion is value-preserving. -/
def floatData (xs : List Int) : List Scalar :=
  xs.map (fun n => Scalar.real (Rat.ofInt n))

/-- A string column as vlen-string cells. -/
def strData (xs : List String) : List Scalar :=
  xs.map Scalar.str

/-- The outcome of splitting one legacy property: the replacement base
dataset (with its optional scalar `uncertainty` attribute) and the optional
auxiliary sibling dataset for each of the five legacy columns. -/
structure SplitResult where
  base : SimpleDS
  unc_sib : Option SimpleDS
  ref_sib : Option SimpleDS
  file_sib : Option SimpleDS
  enc_sib : Option SimpleDS
  chk_sib : Option SimpleDS
  envOut : Env

/-- The per-record decision logic of `update_props` (upgrade.py lines
61–95): rebuild the base property from the `value` column with its dtype
unchanged, then apply the auxiliary-column rules in source order —
uncertainty (`len(set(u)) > 1` makes a float sibling, else `any(u)` makes a
scalar attribute on the base, else nothing) and the four string columns
(`any(col)` makes a vlen-string sibling).  Identifier draws happen in the
same order as the `create_property` calls in the source. -/
def split_prop (env : Env) (propname : String) (L : LegacyCols) : SplitResult :=
  let be := create_property env propname L.valueDtype L.value
  let bu :=
    if (L.uncertainty.dedup).length > 1 then
      let se := create_property be.2 (propname ++ ".uncertainty") DType.floatDt
        (floatData L.uncertainty)
      (be.1, some se.1, se.2)
    else if L.uncertainty.any (fun x => x != 0) then
      ({ be.1 with uncertaintyAttr := some (L.uncertainty.headD 0) }, none, be.2)
    else
      (be.1, none, be.2)
  let re :=
    if L.reference.any (fun s => s != "") then
      let se := create_property bu.2.2 (propname ++ ".reference") DType.strDt
        (strData L.reference)
      (some se.1, se.2)
    else (none, bu.2.2)
  let fe :=
    if L.filename.any (fun s => s != "") then
      let se := create_property re.2 (propname ++ ".filename") DType.strDt
        (strData L.filename)
      (some se.1, se.2)
    else (none, re.2)
  let ee :=
    if L.encoder.any (fun s => s != "") then
      let se := create_property fe.2 (propname ++ ".encoder") DType.strDt
        (strData L.encoder)
      (some se.1, se.2)
    else (none, fe.2)
  let ce :=
    if L.checksum.any (fun s => s != "") then
      let se := create_property ee.2 (propname ++ ".checksum") DType.strDt
        (strData L.checksum)
      (some se.1, se.2)
    else (none, ee.2)
  ⟨bu.1, bu.2.1, re.1, fe.1, ee.1, ce.1, ce.2⟩

/-- Create an optional sibling dataset at the given path. -/
def optCreate (m : MMap) (path : String) : Option SimpleDS → Except String MMap
  | none => .ok m
  | some sib => dsCreate m path (DSet.simple sib)

/-- Install a sequence of optional sibling datasets, each at the base path
extended by its suffix, stopping at the first failure. -/
def create_sibs (m : MMap) (p : String) :
    List (String × Option SimpleDS) → Except String MMap
  | [] => .ok m
  | (suf, o) :: rest =>
    match optCreate m (p ++ suf) o with
    | .error e => .error e
    | .ok m1 => create_sibs m1 p rest

/-- The five auxiliary siblings of a split, with their path suffixes, in
the source's creation order. -/
def sibList (r : SplitResult) : List (String × Option SimpleDS) :=
  [(".uncertainty", r.unc_sib), (".reference", r.ref_sib),
   (".filename", r.file_sib), (".encoder", r.enc_sib), (".checksum", r.chk_sib)]

/-- Install the five optional auxiliary siblings of `split_prop`. -/
def add_sibs (m : MMap) (p : String) (r : SplitResult) : Except String MMap :=
  create_sibs m p (sibList r)

/-- One iteration of the `update_props` loop body for a planned path: read
the six columns of the compound dataset (KeyError when the path is gone,
field access fails when it is not compound), delete it, create the base
replacement at the same path and then the auxiliary siblings. -/
def update_one_prop (st : Env × MMap) (propname : String) :
    Except String (Env × MMap) :=
  match dsLookup st.2 propname with
  | none => .error ("KeyError: " ++ propname)
  | some (DSet.simple _) => .error ("not a compound dataset: " ++ propname)
  | some (DSet.legacy L) =>
    let r := split_prop st.1 propname L
    match dsCreate (dsDelete st.2 propname) propname (DSet.simple r.base) with
    | .error e => .error e
    | .ok m1 =>
      match add_sibs m1 propname r with
      | .error e => .error e
      | .ok m2 => .ok (r.envOut, m2)

/-- The `update_props` closure: rewrite, in order, every path collected at
planning time. -/
def update_props (st : Env × MMap) : List String → Except String (Env × MMap)
  | [] => .ok st
  | p :: rest =>
    match update_one_prop st p with
    | .error e => .error e
    | .ok st' => update_props st' rest

/-- A migration task.  The source represents tasks as closures
(`add_id`, `update_props`, `update_ver`); `normalizeRecords` carries the
path list that `update_property_values` snapshots when the plan is built. -/
inductive Task where
  | assignIdentity
  | normalizeRecords (props : List String)
  | bumpVersion
  deriving DecidableEq

/-- `".".join(str(v) for v in version)`. -/
def verStr (v : List Int) : String :=
  String.intercalate "." (v.map toString)

/-- The `__doc__` description each task closure carries. -/
def Task.descr (lib : List Int) : Task → String
  | .assignIdentity => "Add a UUID to the file header"
  | .normalizeRecords props =>
      "Update " ++ toString props.length ++ " properties"
  | .bumpVersion => "Update the file format version to " ++ verStr lib

/-- `collect_tasks`: read the version (KeyError propagates); an integer
tuple at or above the library target means up to date (no tasks, `None`);
otherwise a file without a valid id gets the structural tasks first, and
the format bump is always appended last.  A non-integer version attribute
raises at the tuple comparison. -/
def collect_tasks (lib : List Int) (f : HFile) :
    Except String (Option (List Task)) :=
  match get_file_version f with
  | .error e => .error e
  | .ok (VersionAttr.ints fileVer) =>
    if tupleGe fileVer lib then
      .ok none
    else if has_valid_file_id f then
      .ok (some [Task.bumpVersion])
    else
      .ok (some [Task.assignIdentity,
                 Task.normalizeRecords (find_props f.metadata),
                 Task.bumpVersion])
  | .ok _ => .error "TypeError: version attribute is not an integer tuple"

/-- Execute one task against the file (`add_id` writes a fresh id,
`update_props` rewrites the planned paths, `update_ver` writes the library
version tuple). -/
def run_task (lib : List Int) (st : Env × HFile) :
    Task → Except String (Env × HFile)
  | .assignIdentity =>
      .ok ((createId st.1).2, { st.2 with fileId := some (createId st.1).1 })
  | .normalizeRecords props =>
      match update_props (st.1, st.2.metadata) props with
      | .error e => .error e
      | .ok r => .ok (r.1, { st.2 with metadata := r.2 })
  | .bumpVersion => .ok (st.1, { st.2 with version := VersionAttr.ints lib })

/-- Run a task list in order, as the executor loop in `main` does. -/
def apply_tasks (lib : List Int) (st : Env × HFile) :
    List Task → Except String (Env × HFile)
  | [] => .ok st
  | t :: ts =>
    match run_task lib st t with
    | .error e => .error e
    | .ok st' => apply_tasks lib st' ts

/-- The planning loop of `main`: `collect_tasks` for each file in turn,
skipping files with no tasks.  There is no exception handler, so a planning
failure aborts the loop, dropping the remaining files. -/
def plan_all (lib : List Int) :
    List (String × HFile) → Except String (List (String × List Task))
  | [] => .ok []
  | (n, f) :: rest =>
    match collect_tasks lib f with
    | .error e => .error e
    | .ok none => plan_all lib rest
    | .ok (some ts) => (plan_all lib rest).map (fun acc => (n, ts) :: acc)

/-! ### Concrete sample data used to instantiate the theorems -/

/-- A syntactically valid UUID string. -/
def uuidSample : String := "3fa85f64-5717-4562-b3fc-2c963f66afa6"

/-- A sample library target version. -/
def libV : List Int := [1, 1, 1]

/-- A sample generator state. -/
def env0 : Env := { nextId := 0, now := 100 }

/-- A 3-row legacy record with uncertainty `[1, 2, 2]` and
reference `["", "a", ""]`. -/
def colsMulti : LegacyCols :=
  { valueDtype := .intDt, value := [.int 10, .int 20, .int 30],
    uncertainty := [1, 2, 2], reference := ["", "a", ""],
    filename := ["", "", ""], encoder := ["", "", ""], checksum := ["", "", ""] }

/-- A 3-row legacy record with uncertainty `[5, 5, 5]` and
reference `["", "", ""]`. -/
def colsEqual : LegacyCols :=
  { valueDtype := .floatDt, value := [.real 1, .real 2, .real 3],
    uncertainty := [5, 5, 5], reference := ["", "", ""],
    filename := ["", "", ""], encoder := ["", "", ""], checksum := ["", "", ""] }

/-- A 3-row legacy record with uncertainty `[0, 0, 0]`. -/
def colsZero : LegacyCols :=
  { valueDtype := .strDt, value := [.str "x", .str "y", .str "z"],
    uncertainty := [0, 0, 0], reference := ["", "", ""],
    filename := ["", "", ""], encoder := ["", "", ""], checksum := ["", "", ""] }

/-- A legacy container: old version, no id, one compound record. -/
def fLegacy : HFile :=
  { version := .ints [1, 0, 0], fileId := none,
    metadata := [("/metadata/sec/prop", .legacy colsMulti)] }

/-- An old-version container that already has a valid id. -/
def fValidId : HFile :=
  { version := .ints [1, 0, 0], fileId := some uuidSample, metadata := [] }

/-- An old-version container whose id attribute holds the empty string. -/
def fEmptyId : HFile :=
  { version := .ints [1, 0, 0], fileId := some "",
    metadata := [("/metadata/sec/prop", .legacy colsMulti)] }

/-- A container with no version attribute at all. -/
def fNoVersion : HFile :=
  { version := .absent, fileId := none, metadata := [] }

/-- The base property that normalizing `fLegacy`'s record produces. -/
def baseProp : SimpleDS :=
  { dtype := .intDt, data := [.int 10, .int 20, .int 30], nameAttr := "prop",
    entityId := "uuid-0", createdAt := 100, updatedAt := 100,
    uncertaintyAttr := none }

/-- The uncertainty sibling that normalizing `fLegacy`'s record produces. -/
def uncProp : SimpleDS :=
  { dtype := .floatDt, data := [.real 1, .real 2, .real 2],
    nameAttr := "prop.uncertainty", entityId := "uuid-1",
    createdAt := 100, updatedAt := 100, uncertaintyAttr := none }

/-- The reference sibling that normalizing `fLegacy`'s record produces. -/
def refProp : SimpleDS :=
  { dtype := .strDt, data := [.str "", .str "a", .str ""],
    nameAttr := "prop.reference", entityId := "uuid-2",
    createdAt := 100, updatedAt := 100, uncertaintyAttr := none }

/-- The generator state after the three identifier draws above. -/
def env3 : Env := { nextId := 3, now := 100 }

/-- The metadata listing after normalizing `fLegacy`'s single record. -/
def m5 : MMap :=
  [("/metadata/sec/prop", .simple baseProp),
   ("/metadata/sec/prop.uncertainty", .simple uncProp),
   ("/metadata/sec/prop.reference", .simple refProp)]

/-- `fLegacy`'s metadata with an extra compound record appended after
planning has already happened. -/
def gAdded : MMap := fLegacy.metadata ++ [("/metadata/sec/q", .legacy colsEqual)]

/-- The result of executing the planned rewrite against `gAdded`: the
planned record is rewritten, the late arrival is untouched. -/
def m10 : MMap := ("/metadata/sec/q", .legacy colsEqual) :: m5

/-- A legacy container with an empty metadata tree. -/
def fPlain : HFile :=
  { version := .ints [1, 0, 0], fileId := none, metadata := [] }

/-- The plan `collect_tasks` produces for `fPlain`. -/
def planP : List Task :=
  [Task.assignIdentity, Task.normalizeRecords [], Task.bumpVersion]

/-- The generator state after applying `planP` (one identifier drawn). -/
def envP : Env := { nextId := 1, now := 100 }

/-- `fPlain` after its full plan: stamped id, current version. -/
def fBumped : HFile :=
  { version := .ints libV, fileId := some "uuid-0", metadata := [] }

/-! ### Order lemmas for version tuples -/

theorem tupleLt_irrefl (v : List Int) : tupleLt v v = false := by
  induction v with
  | nil => rfl
  | cons a as ih => simp [tupleLt, ih]

theorem tupleLt_asymm {a b : List Int} (h : tupleLt a b = true) :
    tupleLt b a = false := by
  induction a generalizing b with
  | nil =>
    cases b with
    | nil => simp [tupleLt] at h
    | cons c cs => rfl
  | cons x xs ih =>
    cases b with
    | nil => simp [tupleLt] at h
    | cons y ys =>
      by_cases hxy : x < y
      · have hyx : ¬ y < x := lt_asymm hxy
        have hne : y ≠ x := ne_of_gt hxy
        simp [tupleLt, hyx, hne]
      · by_cases hxe : x = y
        · subst hxe
          simp only [tupleLt, if_neg hxy, if_pos rfl] at h
          simp [tupleLt, lt_irrefl, ih h]
        · simp [tupleLt, hxy, hxe] at h

/-! ### Lookup, delete and create lemmas for the dataset listing -/

theorem dsLookup_append_some {m1 : MMap} {q : String} {d : DSet}
    (h : dsLookup m1 q = some d) (m2 : MMap) :
    dsLookup (m1 ++ m2) q = some d := by
  induction m1 with
  | nil => simp [dsLookup] at h
  | cons e rest ih =>
    obtain ⟨n, dd⟩ := e
    by_cases he : n = q
    · simp [dsLookup, he] at h ⊢
      exact h
    · simp [dsLookup, he] at h ⊢
      exact ih h

theorem dsLookup_append_none {m1 : MMap} {q : String}
    (h : dsLookup m1 q = none) (m2 : MMap) :
    dsLookup (m1 ++ m2) q = dsLookup m2 q := by
  induction m1 with
  | nil => rfl
  | cons e rest ih =>
    obtain ⟨n, dd⟩ := e
    by_cases he : n = q
    · simp [dsLookup, he] at h
    · simp [dsLookup, he] at h ⊢
      exact ih h

theorem dsLookup_delete_self (m : MMap) (p : String) :
    dsLookup (dsDelete m p) p = none := by
  induction m with
  | nil => rfl
  | cons e rest ih =>
    obtain ⟨n, d⟩ := e
    by_cases h : n = p
    · simp [dsDelete, h, ih]
    · simp [dsDelete, dsLookup, h, ih]

theorem dsLookup_delete_ne (m : MMap) {p q : String} (h : q ≠ p) :
    dsLookup (dsDelete m p) q = dsLookup m q := by
  induction m with
  | nil => rfl
  | cons e rest ih =>
    obtain ⟨n, d⟩ := e
    by_cases hn : n = p
    · subst hn
      simp [dsDelete, dsLookup, Ne.symm h, ih]
    · by_cases hq : n = q
      · subst hq
        simp [dsDelete, dsLookup, hn]
      · simp [dsDelete, dsLookup, hn, hq, ih]

theorem optCreate_preserves {m m' : MMap} {path q : String} {d : DSet}
    {o : Option SimpleDS}
    (hq : dsLookup m q = some d) (h : optCreate m path o = .ok m') :
    dsLookup m' q = some d := by
  cases o with
  | none =>
    simp only [optCreate, Except.ok.injEq] at h
    subst h
    exact hq
  | some sib =>
    unfold optCreate dsCreate at h
    cases hl : dsLookup m path with
    | some x =>
      rw [hl] at h
      exact absurd h (by simp)
    | none =>
      rw [hl] at h
      simp only [Except.ok.injEq] at h
      subst h
      exact dsLookup_append_some hq _

theorem create_sibs_preserves {p q : String} {d : DSet}
    {sibs : List (String × Option SimpleDS)} :
    ∀ {m m' : MMap}, dsLookup m q = some d →
      create_sibs m p sibs = .ok m' → dsLookup m' q = some d := by
  induction sibs with
  | nil =>
    intro m m' hq h
    simp only [create_sibs, Except.ok.injEq] at h
    subst h
    exact hq
  | cons e rest ih =>
    intro m m' hq h
    obtain ⟨suf, o⟩ := e
    unfold create_sibs at h
    cases ho : optCreate m (p ++ suf) o with
    | error e =>
      rw [ho] at h
      exact absurd h (by simp)
    | ok m1 =>
      rw [ho] at h
      exact ih (optCreate_preserves hq ho) h

/-! ### Facts about the record-splitting step -/

theorem split_prop_base_fields (env : Env) (p : String) (L : LegacyCols) :
    (split_prop env p L).base.dtype = L.valueDtype ∧
    (split_prop env p L).base.data = L.value ∧
    (split_prop env p L).base.nameAttr = leafName p ∧
    (split_prop env p L).base.entityId = "uuid-" ++ toString env.nextId ∧
    (split_prop env p L).base.createdAt = env.now ∧
    (split_prop env p L).base.updatedAt = env.now := by
  unfold split_prop create_property createId
  split_ifs <;> simp

theorem update_one_prop_ok_lookup_self {env : Env} {m : MMap} {p : String}
    {L : LegacyCols} {env' : Env} {m' : MMap}
    (hL : dsLookup m p = some (DSet.legacy L))
    (h : update_one_prop (env, m) p = .ok (env', m')) :
    dsLookup m' p = some (DSet.simple ((split_prop env p L).base)) ∧
    env' = (split_prop env p L).envOut := by
  unfold update_one_prop at h
  simp only [hL] at h
  have hdel : dsLookup (dsDelete m p) p = none := dsLookup_delete_self m p
  simp only [dsCreate, hdel] at h
  cases hs : add_sibs (dsDelete m p ++ [(p, DSet.simple (split_prop env p L).base)])
      p (split_prop env p L) with
  | error e =>
    rw [hs] at h
    exact absurd h (by simp)
  | ok m2 =>
    rw [hs] at h
    simp only [Except.ok.injEq, Prod.mk.injEq] at h
    obtain ⟨henv, hm⟩ := h
    subst henv hm
    have hbase : dsLookup (dsDelete m p ++ [(p, DSet.simple (split_prop env p L).base)]) p
        = some (DSet.simple (split_prop env p L).base) := by
      rw [dsLookup_append_none hdel]
      simp [dsLookup]
    exact ⟨create_sibs_preserves hbase hs, rfl⟩

theorem update_one_prop_preserves {st : Env × MMap} {p q : String} {d : DSet}
    {st' : Env × MMap}
    (hne : p ≠ q) (hq : dsLookup st.2 q = some d)
    (h : update_one_prop st p = .ok st') :
    dsLookup st'.2 q = some d := by
  unfold update_one_prop at h
  cases hl : dsLookup st.2 p with
  | none =>
    rw [hl] at h
    exact absurd h (by simp)
  | some ds =>
    rw [hl] at h
    cases ds with
    | simple s =>
      exact absurd h (by simp)
    | legacy L =>
      have hdel : dsLookup (dsDelete st.2 p) p = none := dsLookup_delete_self st.2 p
      simp only [dsCreate, hdel] at h
      cases hs : add_sibs (dsDelete st.2 p ++ [(p, DSet.simple (split_prop st.1 p L).base)])
          p (split_prop st.1 p L) with
      | error e =>
        rw [hs] at h
        exact absurd h (by simp)
      | ok m2 =>
        rw [hs] at h
        simp only [Except.ok.injEq] at h
        have hq1 : dsLookup (dsDelete st.2 p) q = some d := by
          rw [dsLookup_delete_ne st.2 (Ne.symm hne)]
          exact hq
        have hq2 : dsLookup (dsDelete st.2 p ++ [(p, DSet.simple (split_prop st.1 p L).base)]) q
            = some d := dsLookup_append_some hq1 _
        have := create_sibs_preserves hq2 hs
        rw [← h]
        exact this

theorem update_props_preserves {q : String} {d : DSet} {ps : List String} :
    ∀ {st st' : Env × MMap}, (∀ p ∈ ps, p ≠ q) → dsLookup st.2 q = some d →
      update_props st ps = .ok st' → dsLookup st'.2 q = some d := by
  induction ps with
  | nil =>
    intro st st' _ hq h
    simp only [update_props, Except.ok.injEq] at h
    subst h
    exact hq
  | cons p rest ih =>
    intro st st' hne hq h
    unfold update_props at h
    cases ho : update_one_prop st p with
    | error e =>
      rw [ho] at h
      exact absurd h (by simp)
    | ok st1 =>
      rw [ho] at h
      have hp : p ≠ q := hne p (by simp)
      have hq1 := update_one_prop_preserves hp hq ho
      exact ih (fun x hx => hne x (by simp [hx])) hq1 h

/-! ### Facts about discovery and planning -/

theorem find_props_mem (m : MMap) (p : String) :
    p ∈ find_props m ↔ ∃ d, (p, d) ∈ m ∧ 0 < d.dtypeLen := by
  unfold find_props
  constructor
  · intro h
    obtain ⟨⟨a, d⟩, hmem, heq⟩ := List.mem_map.mp h
    have hf := List.mem_filter.mp hmem
    refine ⟨d, ?_, ?_⟩
    · exact heq ▸ hf.1
    · have : (d.dtypeLen != 0) = true := hf.2
      simp only [bne_iff_ne, ne_eq] at this
      omega
  · rintro ⟨d, hmem, hpos⟩
    refine List.mem_map.mpr ⟨(p, d), List.mem_filter.mpr ⟨hmem, ?_⟩, rfl⟩
    simp only [bne_iff_ne, ne_eq]
    omega

theorem collect_tasks_ok_some {lib : List Int} {f : HFile} {plan : List Task}
    (h : collect_tasks lib f = .ok (some plan)) :
    ∃ v, f.version = VersionAttr.ints v ∧ tupleGe v lib = false ∧
      ((has_valid_file_id f = true ∧ plan = [Task.bumpVersion]) ∨
       (has_valid_file_id f = false ∧
        plan = [Task.assignIdentity,
                Task.normalizeRecords (find_props f.metadata),
                Task.bumpVersion])) := by
  cases hv : f.version with
  | absent =>
    simp [collect_tasks, get_file_version, hv] at h
  | other tag =>
    simp [collect_tasks, get_file_version, hv] at h
  | ints v =>
    refine ⟨v, rfl, ?_⟩
    by_cases hge : tupleGe v lib
    · simp [collect_tasks, get_file_version, hv, hge] at h
    · by_cases hid : has_valid_file_id f
      · simp [collect_tasks, get_file_version, hv, hge, hid] at h
        exact ⟨by simpa using hge, Or.inl ⟨hid, h.symm⟩⟩
      · simp [collect_tasks, get_file_version, hv, hge, hid] at h
        exact ⟨by simpa using hge, Or.inr ⟨by simpa using hid, h.symm⟩⟩

theorem collect_tasks_ok_none {lib : List Int} {f : HFile}
    (h : collect_tasks lib f = .ok none) :
    ∃ v, f.version = VersionAttr.ints v ∧ tupleGe v lib = true := by
  cases hv : f.version with
  | absent => simp [collect_tasks, get_file_version, hv] at h
  | other tag => simp [collect_tasks, get_file_version, hv] at h
  | ints v =>
    refine ⟨v, rfl, ?_⟩
    by_cases hge : tupleGe v lib
    · exact hge
    · by_cases hid : has_valid_file_id f
      · simp [collect_tasks, get_file_version, hv, hge, hid] at h
      · simp [collect_tasks, get_file_version, hv, hge, hid] at h

theorem tupleGe_refl (v : List Int) : tupleGe v v = true := by
  simp [tupleGe, tupleLt_irrefl]

theorem tupleGe_total_of_not {a b : List Int} (h : tupleGe a b = false) :
    tupleGe b a = true := by
  have hlt : tupleLt a b = true := by
    simpa [tupleGe] using h
  simp [tupleGe, tupleLt_asymm hlt]

theorem collect_tasks_uptodate {lib v : List Int} {f : HFile}
    (hv : f.version = VersionAttr.ints v) (hge : tupleGe v lib = true) :
    collect_tasks lib f = .ok none := by
  simp [collect_tasks, get_file_version, hv, hge]

theorem collect_tasks_bump_only {lib v : List Int} {f : HFile}
    (hv : f.version = VersionAttr.ints v) (hge : tupleGe v lib = false)
    (hid : has_valid_file_id f = true) :
    collect_tasks lib f = .ok (some [Task.bumpVersion]) := by
  simp [collect_tasks, get_file_version, hv, hge, hid]

theorem collect_tasks_structural {lib v : List Int} {f : HFile}
    (hv : f.version = VersionAttr.ints v) (hge : tupleGe v lib = false)
    (hid : has_valid_file_id f = false) :
    collect_tasks lib f = .ok (some [Task.assignIdentity,
      Task.normalizeRecords (find_props f.metadata), Task.bumpVersion]) := by
  simp [collect_tasks, get_file_version, hv, hge, hid]

theorem collect_tasks_no_version {lib : List Int} {f : HFile}
    (hv : f.version = VersionAttr.absent) :
    collect_tasks lib f = .error "KeyError: version" := by
  simp [collect_tasks, get_file_version, hv]

theorem collect_tasks_bad_version {lib : List Int} {f : HFile} {tag : String}
    (hv : f.version = VersionAttr.other tag) :
    collect_tasks lib f =
      .error "TypeError: version attribute is not an integer tuple" := by
  simp [collect_tasks, get_file_version, hv]

theorem plan_all_cons_error {lib : List Int} {n : String} {f : HFile}
    {rest : List (String × HFile)} {e : String}
    (h : collect_tasks lib f = .error e) :
    plan_all lib ((n, f) :: rest) = .error e := by
  unfold plan_all
  rw [h]

/-! ### The identity-validity check -/

theorem isUuid_beq_empty_false {s : String} (h : isUuid s = true) :
    (s == "") = false := by
  cases hs : s == "" with
  | false => rfl
  | true =>
    have : s = "" := eq_of_beq hs
    subst this
    exact absurd h (by decide)

theorem has_valid_file_id_of {f : HFile} {s : String}
    (h1 : f.fileId = some s) (h3 : isUuid s = true) :
    has_valid_file_id f = true := by
  simp [has_valid_file_id, h1, isUuid_beq_empty_false h3, h3]

theorem has_valid_file_id_none {f : HFile} (h : f.fileId = none) :
    has_valid_file_id f = false := by
  simp [has_valid_file_id, h]

theorem has_valid_file_id_not_uuid {f : HFile} {s : String}
    (h1 : f.fileId = some s) (h2 : isUuid s = false) :
    has_valid_file_id f = false := by
  simp [has_valid_file_id, h1, h2]

theorem has_valid_file_id_empty {f : HFile}
    (h1 : f.fileId = some "") : has_valid_file_id f = false := by
  simp [has_valid_file_id, h1]

/-! ### The uncertainty column -/

theorem dedup_length_le_one_of_all_zero {l : List Int}
    (h : ∀ x ∈ l, x = 0) : l.dedup.length ≤ 1 := by
  by_contra hgt
  push_neg at hgt
  cases hd : l.dedup with
  | nil => rw [hd] at hgt; simp at hgt
  | cons a t =>
    cases ht : t with
    | nil => rw [hd, ht] at hgt; simp at hgt
    | cons b t2 =>
      subst ht
      have ha : a ∈ l := List.mem_dedup.mp (by rw [hd]; simp)
      have hb : b ∈ l := List.mem_dedup.mp (by rw [hd]; simp)
      have hnd := l.nodup_dedup
      rw [hd] at hnd
      have hab : a ≠ b := by
        intro he
        subst he
        simp [List.nodup_cons] at hnd
      exact hab ((h a ha).trans (h b hb).symm)

/-! ### The claims -/

/-- Claim C1: planning compares the stored version tuple to the target
lexicographically; at or above target the plan is empty; below target, a
present and syntactically valid UUID id gives exactly `[BumpVersion]`,
while an absent or malformed id gives exactly
`[AssignIdentity, NormalizeRecords, BumpVersion]` in that fixed order, so
`BumpVersion` is always last and `AssignIdentity` precedes
`NormalizeRecords`. -/
theorem c1_plan_shape (lib v : List Int) (f : HFile)
    (hv : f.version = VersionAttr.ints v) :
    (tupleGe v lib = true → collect_tasks lib f = .ok none)
    ∧ (tupleGe v lib = false → ∀ s, f.fileId = some s → isUuid s = true →
        collect_tasks lib f = .ok (some [Task.bumpVersion]))
    ∧ (tupleGe v lib = false →
        (f.fileId = none ∨ ∃ s, f.fileId = some s ∧ isUuid s = false) →
        collect_tasks lib f = .ok (some [Task.assignIdentity,
          Task.normalizeRecords (find_props f.metadata), Task.bumpVersion])) := by
  refine ⟨fun hge => collect_tasks_uptodate hv hge, ?_, ?_⟩
  · intro hge s hs hu
    exact collect_tasks_bump_only hv hge (has_valid_file_id_of hs hu)
  · intro hge hcase
    refine collect_tasks_structural hv hge ?_
    cases hcase with
    | inl h => exact has_valid_file_id_none h
    | inr h =>
      obtain ⟨s, hs, hu⟩ := h
      exact has_valid_file_id_not_uuid hs hu

/-- Witness for C1: the three plan shapes at concrete files. -/
theorem c1_plan_shape_witness :
    collect_tasks libV fLegacy = .ok (some [Task.assignIdentity,
      Task.normalizeRecords (find_props fLegacy.metadata), Task.bumpVersion]) ∧
    collect_tasks libV fValidId = .ok (some [Task.bumpVersion]) ∧
    collect_tasks libV { fValidId with version := VersionAttr.ints libV } =
      .ok none := by
  refine ⟨?_, ?_, ?_⟩
  · exact (c1_plan_shape libV [1, 0, 0] fLegacy rfl).2.2 (by decide) (Or.inl rfl)
  · exact (c1_plan_shape libV [1, 0, 0] fValidId rfl).2.1 (by decide)
      uuidSample rfl (by decide)
  · exact (c1_plan_shape libV libV
      { fValidId with version := VersionAttr.ints libV } rfl).1 (by decide)

/-- Claim C2: the uncertainty column rules — more than one distinct value
makes a float sibling holding the whole column and leaves no attribute on
the base; otherwise a non-zero value becomes the scalar `uncertainty`
attribute with no sibling; an all-zero column produces neither. -/
theorem c2_uncertainty_split (env : Env) (p : String) (L : LegacyCols) :
    (1 < L.uncertainty.dedup.length →
      (split_prop env p L).base.uncertaintyAttr = none ∧
      ∃ sib, (split_prop env p L).unc_sib = some sib ∧
        sib.dtype = DType.floatDt ∧ sib.data = floatData L.uncertainty)
    ∧ (L.uncertainty.dedup.length ≤ 1 →
       L.uncertainty.any (fun x => x != 0) = true →
      (split_prop env p L).unc_sib = none ∧
      (split_prop env p L).base.uncertaintyAttr =
        some (L.uncertainty.headD 0))
    ∧ ((∀ x ∈ L.uncertainty, x = 0) →
      (split_prop env p L).unc_sib = none ∧
      (split_prop env p L).base.uncertaintyAttr = none) := by
  refine ⟨?_, ?_, ?_⟩
  · intro h
    constructor
    · simp [split_prop, create_property, h]
    · simp [split_prop, create_property, h]
  · intro h1 h2
    have hn : ¬ (L.uncertainty.dedup.length > 1) := by omega
    constructor
    · simp [split_prop, create_property, hn, h2]
    · simp [split_prop, create_property, hn, h2]
  · intro h
    have hn : ¬ (L.uncertainty.dedup.length > 1) := by
      have := dedup_length_le_one_of_all_zero h
      omega
    have h2 : L.uncertainty.any (fun x => x != 0) = false := by
      simp
      exact h
    constructor
    · simp [split_prop, create_property, hn, h2]
    · simp [split_prop, create_property, hn, h2]

/-- Witness for C2: the three concrete 3-row uncertainty columns
`[1, 2, 2]`, `[5, 5, 5]` and `[0, 0, 0]`. -/
theorem c2_uncertainty_split_witness :
    ((split_prop env0 "/metadata/sec/prop" colsMulti).base.uncertaintyAttr
        = none ∧
      ∃ sib, (split_prop env0 "/metadata/sec/prop" colsMulti).unc_sib
          = some sib ∧
        sib.dtype = DType.floatDt ∧ sib.data = floatData [1, 2, 2]) ∧
    ((split_prop env0 "/metadata/sec/prop" colsEqual).unc_sib = none ∧
      (split_prop env0 "/metadata/sec/prop" colsEqual).base.uncertaintyAttr
        = some 5) ∧
    ((split_prop env0 "/metadata/sec/prop" colsZero).unc_sib = none ∧
      (split_prop env0 "/metadata/sec/prop" colsZero).base.uncertaintyAttr
        = none) := by
  refine ⟨?_, ?_, ?_⟩
  · exact (c2_uncertainty_split env0 "/metadata/sec/prop" colsMulti).1
      (by decide)
  · exact (c2_uncertainty_split env0 "/metadata/sec/prop" colsEqual).2.1
      (by decide) (by decide)
  · exact (c2_uncertainty_split env0 "/metadata/sec/prop" colsZero).2.2
      (by decide)

/-- Claim C3: for each string-like auxiliary column, decided independently,
any non-empty row makes a vlen-string sibling holding the whole column
positionally (empty rows included); an all-empty column makes none. -/
theorem c3_string_siblings (env : Env) (p : String) (L : LegacyCols) :
    (L.reference.any (fun s => s != "") = true →
      ∃ sib, (split_prop env p L).ref_sib = some sib ∧
        sib.dtype = DType.strDt ∧ sib.data = strData L.reference)
    ∧ ((∀ x ∈ L.reference, x = "") → (split_prop env p L).ref_sib = none)
    ∧ (L.filename.any (fun s => s != "") = true →
      ∃ sib, (split_prop env p L).file_sib = some sib ∧
        sib.dtype = DType.strDt ∧ sib.data = strData L.filename)
    ∧ ((∀ x ∈ L.filename, x = "") → (split_prop env p L).file_sib = none)
    ∧ (L.encoder.any (fun s => s != "") = true →
      ∃ sib, (split_prop env p L).enc_sib = some sib ∧
        sib.dtype = DType.strDt ∧ sib.data = strData L.encoder)
    ∧ ((∀ x ∈ L.encoder, x = "") → (split_prop env p L).enc_sib = none)
    ∧ (L.checksum.any (fun s => s != "") = true →
      ∃ sib, (split_prop env p L).chk_sib = some sib ∧
        sib.dtype = DType.strDt ∧ sib.data = strData L.checksum)
    ∧ ((∀ x ∈ L.checksum, x = "") → (split_prop env p L).chk_sib = none) := by
  refine ⟨?_, ?_, ?_, ?_, ?_, ?_, ?_, ?_⟩ <;> intro h
  · simp [split_prop, create_property, h]
  · have h2 : L.reference.any (fun s => s != "") = false := by
      simp
      exact h
    simp [split_prop, create_property, h2]
  · simp [split_prop, create_property, h]
  · have h2 : L.filename.any (fun s => s != "") = false := by
      simp
      exact h
    simp [split_prop, create_property, h2]
  · simp [split_prop, create_property, h]
  · have h2 : L.encoder.any (fun s => s != "") = false := by
      simp
      exact h
    simp [split_prop, create_property, h2]
  · simp [split_prop, create_property, h]
  · have h2 : L.checksum.any (fun s => s != "") = false := by
      simp
      exact h
    simp [split_prop, create_property, h2]

/-- Witness for C3: `reference = ["", "a", ""]` makes a sibling holding all
three strings, `reference = ["", "", ""]` makes none. -/
theorem c3_string_siblings_witness :
    (∃ sib, (split_prop env0 "/metadata/sec/prop" colsMulti).ref_sib
        = some sib ∧
      sib.dtype = DType.strDt ∧ sib.data = strData ["", "a", ""]) ∧
    (split_prop env0 "/metadata/sec/prop" colsEqual).ref_sib = none := by
  exact ⟨(c3_string_siblings env0 "/metadata/sec/prop" colsMulti).1 (by decide),
    (c3_string_siblings env0 "/metadata/sec/prop" colsEqual).2.1 (by decide)⟩

/-- Claim C4: when the NormalizeRecords task is planned, a dataset under
the metadata root is a candidate iff its row type is compound (at least one
named field); the paths are collected by the read-only scan at plan time
and the count appears in the description "Update N properties". -/
theorem c4_candidate_discovery (lib v : List Int) (f : HFile)
    (hv : f.version = VersionAttr.ints v) (hge : tupleGe v lib = false)
    (hid : has_valid_file_id f = false) :
    collect_tasks lib f = .ok (some [Task.assignIdentity,
      Task.normalizeRecords (find_props f.metadata), Task.bumpVersion]) ∧
    (∀ p, p ∈ find_props f.metadata ↔
      ∃ d, (p, d) ∈ f.metadata ∧ 0 < d.dtypeLen) ∧
    Task.descr lib (Task.normalizeRecords (find_props f.metadata)) =
      "Update " ++ toString (find_props f.metadata).length ++ " properties" :=
  ⟨collect_tasks_structural hv hge hid,
   fun p => find_props_mem f.metadata p, rfl⟩

/-- Witness for C4: discovery on `fLegacy`, whose one record is compound. -/
theorem c4_candidate_discovery_witness :
    collect_tasks libV fLegacy = .ok (some [Task.assignIdentity,
      Task.normalizeRecords (find_props fLegacy.metadata), Task.bumpVersion]) ∧
    ("/metadata/sec/prop" ∈ find_props fLegacy.metadata ↔
      ∃ d, ("/metadata/sec/prop", d) ∈ fLegacy.metadata ∧ 0 < d.dtypeLen) ∧
    Task.descr libV (Task.normalizeRecords (find_props fLegacy.metadata)) =
      "Update " ++ toString (find_props fLegacy.metadata).length ++
        " properties" := by
  have h := c4_candidate_discovery libV [1, 0, 0] fLegacy rfl (by decide)
    (by decide)
  exact ⟨h.1, h.2.1 "/metadata/sec/prop", h.2.2⟩

/-- Claim C5: a normalized record is deleted and replaced at the same path
by a simple record holding only the value column with its dtype unchanged,
stamped with a freshly drawn entity id, the last path component as its
name, and the current time as both created-at and updated-at. -/
theorem c5_base_replacement (env : Env) (m : MMap) (p : String)
    (L : LegacyCols) (env' : Env) (m' : MMap)
    (hL : dsLookup m p = some (DSet.legacy L))
    (h : update_one_prop (env, m) p = .ok (env', m')) :
    dsLookup m' p = some (DSet.simple ((split_prop env p L).base)) ∧
    (split_prop env p L).base.dtype = L.valueDtype ∧
    (split_prop env p L).base.data = L.value ∧
    (split_prop env p L).base.nameAttr = leafName p ∧
    (split_prop env p L).base.entityId = "uuid-" ++ toString env.nextId ∧
    (split_prop env p L).base.createdAt = env.now ∧
    (split_prop env p L).base.updatedAt = env.now := by
  obtain ⟨hl, henv⟩ := update_one_prop_ok_lookup_self hL h
  have hb := split_prop_base_fields env p L
  exact ⟨hl, hb.1, hb.2.1, hb.2.2.1, hb.2.2.2.1, hb.2.2.2.2.1, hb.2.2.2.2.2⟩

/-- Witness for C5: rewriting `fLegacy`'s record in place. -/
theorem c5_base_replacement_witness :
    dsLookup m5 "/metadata/sec/prop" =
      some (DSet.simple
        ((split_prop env0 "/metadata/sec/prop" colsMulti).base)) ∧
    (split_prop env0 "/metadata/sec/prop" colsMulti).base.dtype =
      colsMulti.valueDtype ∧
    (split_prop env0 "/metadata/sec/prop" colsMulti).base.data =
      colsMulti.value ∧
    (split_prop env0 "/metadata/sec/prop" colsMulti).base.nameAttr =
      leafName "/metadata/sec/prop" ∧
    (split_prop env0 "/metadata/sec/prop" colsMulti).base.entityId =
      "uuid-" ++ toString env0.nextId ∧
    (split_prop env0 "/metadata/sec/prop" colsMulti).base.createdAt =
      env0.now ∧
    (split_prop env0 "/metadata/sec/prop" colsMulti).base.updatedAt =
      env0.now :=
  c5_base_replacement env0 fLegacy.metadata "/metadata/sec/prop" colsMulti
    env3 m5 rfl rfl

/-- Claim C6, as stated, is false on the code: the planning loop in `main`
has no exception handler, so a malformed version attribute aborts the whole
run instead of skipping the file.  Here, with a bad first file and a
plannable second file, planning returns the error and produces no plan for
the second file, which on its own would have planned fine. -/
theorem c6_counterexample :
    plan_all libV [("bad.nix", fNoVersion), ("good.nix", fValidId)] =
      .error "KeyError: version" ∧
    collect_tasks libV fValidId = .ok (some [Task.bumpVersion]) :=
  ⟨rfl, rfl⟩

/-- Claim C6 (amended): a missing or non-integer-tuple version attribute
makes planning for that file fail, and the failure propagates out of the
per-file planning loop, so the remaining files of the invocation are not
processed. -/
theorem c6_planning_failure_aborts_run (lib : List Int) (n : String)
    (f : HFile) (rest : List (String × HFile))
    (h : f.version = VersionAttr.absent ∨
      ∃ tag, f.version = VersionAttr.other tag) :
    ∃ e, collect_tasks lib f = .error e ∧
      plan_all lib ((n, f) :: rest) = .error e := by
  cases h with
  | inl ha =>
    exact ⟨_, collect_tasks_no_version ha,
      plan_all_cons_error (collect_tasks_no_version ha)⟩
  | inr ho =>
    obtain ⟨tag, ht⟩ := ho
    exact ⟨_, collect_tasks_bad_version ht,
      plan_all_cons_error (collect_tasks_bad_version ht)⟩

/-- Witness for amended C6: the version-less file aborts the run. -/
theorem c6_planning_failure_aborts_run_witness :
    ∃ e, collect_tasks libV fNoVersion = .error e ∧
      plan_all libV [("bad.nix", fNoVersion), ("good.nix", fValidId)] =
        .error e :=
  c6_planning_failure_aborts_run libV "bad.nix" fNoVersion
    [("good.nix", fValidId)] (Or.inl rfl)

/-- Claim C7: applying a file's plan never lowers the stored version; a
non-empty plan (which always ends in BumpVersion) leaves exactly the
library target, after which re-classifying yields UpToDate and re-planning
yields an empty plan. -/
theorem c7_version_monotone_roundtrip (lib : List Int) (f : HFile)
    (env : Env) (oplan : Option (List Task)) (env' : Env) (f' : HFile)
    (hplan : collect_tasks lib f = .ok oplan)
    (happly : apply_tasks lib (env, f) (oplan.getD []) = .ok (env', f')) :
    (∃ v v', f.version = VersionAttr.ints v ∧
      f'.version = VersionAttr.ints v' ∧ tupleGe v' v = true) ∧
    (∀ plan, oplan = some plan →
      f'.version = VersionAttr.ints lib ∧
      collect_tasks lib f' = .ok none) := by
  cases oplan with
  | none =>
    obtain ⟨v, hv, hge⟩ := collect_tasks_ok_none hplan
    simp only [Option.getD, apply_tasks, Except.ok.injEq,
      Prod.mk.injEq] at happly
    obtain ⟨he, hf⟩ := happly
    subst hf
    exact ⟨⟨v, v, hv, hv, tupleGe_refl v⟩, by simp⟩
  | some plan =>
    obtain ⟨v, hv, hge, hcase⟩ := collect_tasks_ok_some hplan
    have hgelib : tupleGe lib v = true := tupleGe_total_of_not hge
    have hver : f'.version = VersionAttr.ints lib := by
      cases hcase with
      | inl hc =>
        rw [hc.2] at happly
        simp only [Option.getD, apply_tasks, run_task, Except.ok.injEq,
          Prod.mk.injEq] at happly
        obtain ⟨he, hf⟩ := happly
        rw [← hf]
      | inr hc =>
        rw [hc.2] at happly
        simp only [Option.getD, apply_tasks, run_task] at happly
        cases hup : update_props ((createId env).2,
            ({ f with fileId := some (createId env).1 } : HFile).metadata)
            (find_props f.metadata) with
        | error e =>
          rw [hup] at happly
          exact absurd happly (by simp)
        | ok r =>
          rw [hup] at happly
          simp only [Except.ok.injEq, Prod.mk.injEq] at happly
          obtain ⟨he, hf⟩ := happly
          rw [← hf]
    refine ⟨⟨v, lib, hv, hver, hgelib⟩, ?_⟩
    intro plan2 hp2
    exact ⟨hver, collect_tasks_uptodate hver (tupleGe_refl lib)⟩

/-- Witness for C7: running `fPlain`'s full plan bumps it to the target and
re-planning finds nothing to do. -/
theorem c7_version_monotone_roundtrip_witness :
    (∃ v v', fPlain.version = VersionAttr.ints v ∧
      fBumped.version = VersionAttr.ints v' ∧ tupleGe v' v = true) ∧
    (fBumped.version = VersionAttr.ints libV ∧
      collect_tasks libV fBumped = .ok none) := by
  have h := c7_version_monotone_roundtrip libV fPlain env0 (some planP)
    envP fBumped rfl rfl
  exact ⟨h.1, h.2 planP rfl⟩

/-- Claim C8: a file whose id attribute is present, non-empty and a valid
UUID is never scheduled for structural upgrade: any successful planning
result is the empty plan or exactly `[BumpVersion]`. -/
theorem c8_valid_id_never_structural (lib : List Int) (f : HFile)
    (s : String) (r : Option (List Task))
    (h1 : f.fileId = some s) (h2 : s ≠ "") (h3 : isUuid s = true)
    (h4 : collect_tasks lib f = .ok r) :
    r = none ∨ r = some [Task.bumpVersion] := by
  cases r with
  | none => exact Or.inl rfl
  | some plan =>
    obtain ⟨v, hv, hge, hcase⟩ := collect_tasks_ok_some h4
    cases hcase with
    | inl hc => exact Or.inr (by rw [hc.2])
    | inr hc =>
      have hval := has_valid_file_id_of h1 h3
      rw [hc.1] at hval
      exact absurd hval (by simp)

/-- Witness for C8: the valid-UUID file plans to a bump only. -/
theorem c8_valid_id_never_structural_witness :
    (isUuid uuidSample = true ∧
      collect_tasks libV fValidId = .ok (some [Task.bumpVersion])) ∧
    ((some [Task.bumpVersion] : Option (List Task)) = none ∨
      (some [Task.bumpVersion] : Option (List Task)) =
        some [Task.bumpVersion]) := by
  refine ⟨⟨by decide, rfl⟩, ?_⟩
  exact c8_valid_id_never_structural libV fValidId uuidSample
    (some [Task.bumpVersion]) rfl (by decide) (by decide) rfl

/-- Claim C9: an id attribute holding the empty string is falsy, so the
identity check fails and the file is planned exactly like one with no id
attribute: the full structural plan (when below target). -/
theorem c9_empty_id_structural (lib v : List Int) (f : HFile)
    (h1 : f.fileId = some "") (hv : f.version = VersionAttr.ints v)
    (hge : tupleGe v lib = false) :
    has_valid_file_id f = false ∧
    collect_tasks lib f = .ok (some [Task.assignIdentity,
      Task.normalizeRecords (find_props f.metadata), Task.bumpVersion]) ∧
    collect_tasks lib f = collect_tasks lib { f with fileId := none } := by
  have hid := has_valid_file_id_empty h1
  refine ⟨hid, collect_tasks_structural hv hge hid, ?_⟩
  rw [collect_tasks_structural hv hge hid]
  exact (collect_tasks_structural (f := { f with fileId := none }) hv hge
    (has_valid_file_id_none rfl)).symm

/-- Witness for C9: the empty-string-id file gets the full plan. -/
theorem c9_empty_id_structural_witness :
    has_valid_file_id fEmptyId = false ∧
    collect_tasks libV fEmptyId = .ok (some [Task.assignIdentity,
      Task.normalizeRecords (find_props fEmptyId.metadata),
      Task.bumpVersion]) ∧
    collect_tasks libV fEmptyId =
      collect_tasks libV { fEmptyId with fileId := none } :=
  c9_empty_id_structural libV [1, 0, 0] fEmptyId rfl rfl (by decide)

/-- Claim C10: the path list the NormalizeRecords task rewrites and the
count N in "Update N properties" are fixed by the read-only scan at plan
time; execution processes exactly that snapshot, so a record that appears
(or becomes compound) between planning and execution is left untouched and
does not change N. -/
theorem c10_snapshot_execution (lib : List Int) (f : HFile)
    (plan : List Task) (props : List String) (env env' : Env)
    (g m' : MMap) (q : String) (d : LegacyCols)
    (hplan : collect_tasks lib f = .ok (some plan))
    (hmem : Task.normalizeRecords props ∈ plan)
    (hq : q ∉ props)
    (hg : dsLookup g q = some (DSet.legacy d))
    (hrun : update_props (env, g) props = .ok (env', m')) :
    props = find_props f.metadata ∧
    dsLookup m' q = some (DSet.legacy d) ∧
    Task.descr lib (Task.normalizeRecords props) =
      "Update " ++ toString props.length ++ " properties" := by
  obtain ⟨v, hv, hge, hcase⟩ := collect_tasks_ok_some hplan
  have hprops : props = find_props f.metadata := by
    cases hcase with
    | inl hc => rw [hc.2] at hmem; simp at hmem
    | inr hc =>
      rw [hc.2] at hmem
      simp at hmem
      exact hmem
  have hne : ∀ x ∈ props, x ≠ q := fun x hx hxq => hq (hxq ▸ hx)
  exact ⟨hprops, update_props_preserves hne hg hrun, rfl⟩

/-- Witness for C10: a compound record appended after planning survives the
execution of `fLegacy`'s snapshot untouched. -/
theorem c10_snapshot_execution_witness :
    (["/metadata/sec/prop"] : List String) = find_props fLegacy.metadata ∧
    dsLookup m10 "/metadata/sec/q" = some (DSet.legacy colsEqual) ∧
    Task.descr libV (Task.normalizeRecords ["/metadata/sec/prop"]) =
      "Update " ++ toString (["/metadata/sec/prop"] : List String).length ++
        " properties" :=
  c10_snapshot_execution libV fLegacy
    [Task.assignIdentity, Task.normalizeRecords ["/metadata/sec/prop"],
     Task.bumpVersion]
    ["/metadata/sec/prop"] env0 env3 gAdded m10 "/metadata/sec/q" colsEqual
    rfl (by decide) (by decide) rfl rfl

end Upgrade
